import Mathlib

/-!
Verification development for the EdgeWizard image pipeline
(edgewizard_pipeline.py and line_style.py).

Conventions of the embedding:
* numpy float arrays are modelled as grids of rational numbers with exact
  arithmetic; an image is a height, a width and a total pixel function
  (out-of-range coordinates are irrelevant to all statements).
* 8-bit buffers (PIL mode L or RGB) carry natural-number channel values.
* irrational operations of the source (the float power `x ** e` with
  fractional exponent, and the square root inside skimage scharr) are
  abstracted by an explicit function parameter `pw : Q -> Q -> Q`
  standing for `fun x e => x ** e`; every general theorem quantifies over
  `pw`, and concrete evaluations only ever apply `pw` at base 0 or 1,
  where every real power agrees with the concrete stand-in `pwStd`.
* fallible numpy calls (np.pad with mode edge on an empty axis raises
  ValueError) are modelled with Option.
-/

set_option maxRecDepth 100000

namespace EdgeWizard

/-- An image buffer: height, width and a total pixel function (row, column).
Models a numpy array of shape (h, w) of the given element type. -/
structure Img (α : Type) where
  h : ℕ
  w : ℕ
  px : ℕ → ℕ → α

/-- RGB byte image (PIL mode RGB after img.convert), channels in 0..255. -/
abbrev Img3 := Img (ℕ × ℕ × ℕ)

/-- Row-major list of all pixel values, the order numpy flattening uses. -/
def pixList {α : Type} (a : Img α) : List α :=
  (List.range a.h).flatMap (fun y => (List.range a.w).map (fun x => a.px y x))

/-- np.clip(x, 0.0, 1.0): lower bound applied first, then the upper bound. -/
def clip01 (x : ℚ) : ℚ := min (max x 0) 1

/-- One entry of float_to_pil: np.clip to the unit interval, scale by 255 and
truncate to uint8; on the clipped nonnegative value truncation is the floor. -/
def floatToPilByte (x : ℚ) : ℕ := (⌊clip01 x * 255⌋).toNat

/-- float_to_pil from the source: clamp a float array to the unit interval
and convert it to an 8-bit L image. -/
def floatToPil (a : Img ℚ) : Img ℕ :=
  ⟨a.h, a.w, fun y x => floatToPilByte (a.px y x)⟩

/-- Maximum of a list, 0 on the empty list (only used on nonempty lists). -/
def maxList (l : List ℚ) : ℚ :=
  match l with
  | [] => 0
  | x :: xs => xs.foldl max x

/-- Minimum of a list, 0 on the empty list (only used on nonempty lists). -/
def minList (l : List ℚ) : ℚ :=
  match l with
  | [] => 0
  | x :: xs => xs.foldl min x

/-- np.percentile with the default linear interpolation: sort ascending,
take position q/100 * (n-1) and interpolate between the two neighbouring
order statistics.  np.median coincides with percentile at q = 50.
Defined as 0 on the empty list; every call site of the source is guarded
so that the list is nonempty. -/
def percentile (l : List ℚ) (q : ℚ) : ℚ :=
  let s := List.insertionSort (· ≤ ·) l
  let n := s.length
  if n = 0 then 0
  else
    let pos := q / 100 * ((n : ℚ) - 1)
    let i := (⌊pos⌋).toNat
    let frac := pos - (i : ℚ)
    let a := s.getD i 0
    let b := s.getD (i + 1) a
    a + frac * (b - a)

/-- Stand-in type for the float power `x ** e` of the source (and the square
root of skimage, `x ** (1/2)`). -/
abbrev Pw := ℚ → ℚ → ℚ

/-- Concrete stand-in for the float power, used only in closed statements
whose evaluation applies the power at base 0 or base 1 (with a positive
exponent), where the real power takes the values 0 and 1 respectively:
this clamp agrees with it there. -/
def pwStd : Pw := fun x _ => min (max x 0) 1

/-! ## Tuning constants of edgewizard_pipeline.py (CONFIG block) -/

def EDGE_GAIN : ℚ := 2
def EDGE_GAMMA : ℚ := 0.8
def LINE_SOFT_NORMALIZE : Bool := true
def LINE_MASK_THRESH : ℚ := 0.985
def LINE_BRIGHTEN_STRONG : ℚ := 0.8
def LINE_BRIGHTEN_SOFT : ℚ := 0.4
def ENABLE_BRIGHT_EQUALIZER : Bool := true
def BRIGHT_EQ_LOW_PCT : ℚ := 5
def BRIGHT_EQ_HIGH_PCT : ℚ := 95
def BRIGHT_EQ_BASE : ℚ := 0.28
def BRIGHT_EQ_RANGE : ℚ := 0.06
def ENABLE_GLOBAL_LIFT : Bool := true
def GLOBAL_LIFT : ℚ := 0.01
def MIN_LINE_BRIGHT : ℚ := 0.33
def ENABLE_ULTRA_UNIFORMIZER : Bool := true
def ULTRA_LOW_PCT : ℚ := 10
def ULTRA_BAND_MIN : ℚ := 0.33
def ULTRA_BAND_MAX : ℚ := 0.36
def ADD_BORDER : Bool := false
def BORDER_WIDTH_PX : ℕ := 2
def RG_MIN_COVERAGE : ℚ := 0.25
def RG_MIN_MARGIN_FRAC : ℚ := 0.02
def RG_LINE_WIDTH : ℕ := 1

/-! ## Color space reduction (rgb_to_hs and the luminance of compute_edge_map) -/

/-- Scale an RGB byte image into the unit cube:
np.array(img_color).astype(float32) / 255. -/
def toRGBq (c : Img3) : Img (ℚ × ℚ × ℚ) :=
  ⟨c.h, c.w, fun y x =>
    (((c.px y x).1 : ℚ) / 255, ((c.px y x).2.1 : ℚ) / 255, ((c.px y x).2.2 : ℚ) / 255)⟩

/-- BT.709 luminance of one pixel: 0.2126 r + 0.7152 g + 0.0722 b. -/
def lumPx (p : ℚ × ℚ × ℚ) : ℚ := 0.2126 * p.1 + 0.7152 * p.2.1 + 0.0722 * p.2.2

/-- The luminance field of compute_edge_map. -/
def lumImg (c : Img3) : Img ℚ :=
  ⟨c.h, c.w, fun y x => lumPx ((toRGBq c).px y x)⟩

/-- max_l of compute_edge_map: the maximum luminance, 1.0 for an empty
array, floored below by the epsilon 1e-6. -/
def maxLum (c : Img3) : ℚ :=
  let l := pixList (lumImg c)
  let m := if l = [] then 1 else maxList l
  if m < 1 / 1000000 then 1 / 1000000 else m

/-- lum_norm of compute_edge_map: luminance divided by the guarded maximum. -/
def lumNormImg (c : Img3) : Img ℚ :=
  ⟨c.h, c.w, fun y x => (lumImg c).px y x / maxLum c⟩

/-- Python float modulo with divisor 6 (numpy `% 6.0`): the result has the
sign of the divisor, x - 6 * floor (x / 6). -/
def qmod6 (x : ℚ) : ℚ := x - 6 * ⌊x / 6⌋

/-- Hue of one unit-cube RGB pixel, rgb_to_hs of the source.  The source
writes h_raw on the mask maxc == r first and on maxc == g second, so a
pixel with r = g = maxc receives the green formula: the green test comes
first here. -/
def huePx (p : ℚ × ℚ × ℚ) : ℚ :=
  let r := p.1
  let g := p.2.1
  let b := p.2.2
  let maxc := max (max r g) b
  let minc := min (min r g) b
  let delta := maxc - minc
  if 1 / 1000000 < delta then
    (if maxc = g then (b - r) / delta + 2
     else if maxc = r then qmod6 ((g - b) / delta)
     else (r - g) / delta + 4) / 6
  else 0

/-- Saturation of one unit-cube RGB pixel, rgb_to_hs of the source. -/
def satPx (p : ℚ × ℚ × ℚ) : ℚ :=
  let maxc := max (max p.1 p.2.1) p.2.2
  let minc := min (min p.1 p.2.1) p.2.2
  if 1 / 1000000 < maxc then (maxc - minc) / maxc else 0

/-- The hue field of rgb_to_hs. -/
def hueImg (c : Img3) : Img ℚ :=
  ⟨c.h, c.w, fun y x => huePx ((toRGBq c).px y x)⟩

/-- The saturation field of rgb_to_hs. -/
def satImg (c : Img3) : Img ℚ :=
  ⟨c.h, c.w, fun y x => satPx ((toRGBq c).px y x)⟩

/-! ## Scharr gradient (skimage.filters.scharr)

The source calls skimage.filters.scharr on the normalized luminance.
skimage computes the horizontal and vertical Scharr responses by
convolving with the 3x3 kernels built from the smoothing taps
(3, 10, 3)/16 and the difference taps (1, 0, -1), with boundary mode
reflect (an out-of-range index one step past an edge reads the edge
pixel), and combines them as the Euclidean magnitude
sqrt(H^2 + V^2) / sqrt 2 = sqrt ((H^2 + V^2) / 2).
The sign convention of the responses is irrelevant here: every statement
uses their squares or absolute values. -/

/-- Reflect boundary indexing for a radius-1 neighbourhood: one step past
either edge reads the edge pixel. -/
def reflIdx (n : ℕ) (i : ℤ) : ℕ :=
  if i < 0 then 0 else if (n : ℤ) ≤ i then n - 1 else i.toNat

/-- Pixel access with reflect boundary handling. -/
def pxR (a : Img ℚ) (y x : ℤ) : ℚ := a.px (reflIdx a.h y) (reflIdx a.w x)

/-- Scharr response differencing along the row axis (smoothing along
columns): the kernel (3, 10, 3; 0, 0, 0; -3, -10, -3) / 16. -/
def scharrV (a : Img ℚ) (y x : ℕ) : ℚ :=
  (3 * pxR a (y - 1) (x - 1) + 10 * pxR a (y - 1) x + 3 * pxR a (y - 1) (x + 1)
   - 3 * pxR a (y + 1) (x - 1) - 10 * pxR a (y + 1) x - 3 * pxR a (y + 1) (x + 1)) / 16

/-- Scharr response differencing along the column axis (smoothing along
rows): the transposed kernel. -/
def scharrH (a : Img ℚ) (y x : ℕ) : ℚ :=
  (3 * pxR a (y - 1) (x - 1) + 10 * pxR a y (x - 1) + 3 * pxR a (y + 1) (x - 1)
   - 3 * pxR a (y - 1) (x + 1) - 10 * pxR a y (x + 1) - 3 * pxR a (y + 1) (x + 1)) / 16

/-- The square of the value skimage.filters.scharr returns at one pixel:
the Scharr magnitude is sqrt ((H^2 + V^2) / 2), so its square is
(H^2 + V^2) / 2.  The pipeline itself recovers the magnitude through the
abstract power, `pw (gradLumSq ..) (1/2)`. -/
def gradLumSq (a : Img ℚ) (y x : ℕ) : ℚ :=
  (scharrH a y x ^ 2 + scharrV a y x ^ 2) / 2

/-- Modelled from the words of the spec, for comparison with the source:
the elementwise maximum of the absolute horizontal and vertical Scharr
responses, the combination section 4.2 of the spec ascribes to the
luminance gradient. -/
def scharrMaxCombo (a : Img ℚ) (y x : ℕ) : ℚ :=
  max |scharrH a y x| |scharrV a y x|

/-! ## Neighbour differences and the hue boost -/

/-- _diff_linear: absolute forward differences along each axis, edge-padded
back to full size, combined by the elementwise maximum.
np.pad with mode edge raises ValueError when the padded axis is empty,
which happens exactly when the diff removed the only column (w < 2, for
the dx computed first) or the only row (h < 2, for dy): those cases are
none. -/
def diffLinear (a : Img ℚ) : Option (Img ℚ) :=
  if a.w < 2 then none
  else if a.h < 2 then none
  else some ⟨a.h, a.w, fun y x =>
    let x' := min x (a.w - 2)
    let y' := min y (a.h - 2)
    max |a.px y (x' + 1) - a.px y x'| |a.px (y' + 1) x - a.px y' x|⟩

/-- One circular hue distance: d = |delta| combined with its complement,
min(|delta|, 1 - |delta|). -/
def circDist (d : ℚ) : ℚ := min |d| (1 - |d|)

/-- _diff_circular_hue: like diffLinear but with the circular hue distance,
and the same ValueError cases from np.pad on an empty axis. -/
def diffCircularHue (a : Img ℚ) : Option (Img ℚ) :=
  if a.w < 2 then none
  else if a.h < 2 then none
  else some ⟨a.h, a.w, fun y x =>
    let x' := min x (a.w - 2)
    let y' := min y (a.h - 2)
    max (circDist (a.px y (x' + 1) - a.px y x'))
        (circDist (a.px (y' + 1) x - a.px y' x))⟩

/-- compute_hue_boost: normalized hue and luminance neighbour differences
combined into the chroma-edge boost
clip((dHn ** 1.4) * ((1 - dLn) ** 2.0) * (sat ** 1.2), 0, 1). -/
def computeHueBoost (pw : Pw) (hue lumN sat : Img ℚ) : Option (Img ℚ) :=
  (diffCircularHue hue).bind fun dH =>
    (diffLinear lumN).bind fun dL =>
      some ⟨hue.h, hue.w, fun y x =>
        let dHn := clip01 (dH.px y x / 0.20)
        let dLn := clip01 (dL.px y x / 0.25)
        clip01 (pw dHn 1.4 * pw (1 - dLn) 2 * pw (sat.px y x) 1.2)⟩

/-! ## Edge core (compute_edge_map) -/

/-- grad of compute_edge_map: the absolute Scharr magnitude of normalized
luminance (np.abs of skimage scharr, the magnitude being
sqrt of gradLumSq) plus 1.5 times the hue boost. -/
def gradImg (pw : Pw) (c : Img3) (boost : Img ℚ) : Img ℚ :=
  ⟨c.h, c.w, fun y x =>
    |pw (gradLumSq (lumNormImg c) y x) (1 / 2)| + 1.5 * boost.px y x⟩

/-- max_g of compute_edge_map: maximum of grad, 1.0 on an empty array,
floored below by the epsilon 1e-6. -/
def maxGrad (pw : Pw) (c : Img3) (boost : Img ℚ) : ℚ :=
  let l := pixList (gradImg pw c boost)
  let m := if l = [] then 1 else maxList l
  if m < 1 / 1000000 then 1 / 1000000 else m

/-- inv of compute_edge_map after the gamma step: normalize grad by its
guarded maximum, apply the gain and clip, invert to ink tone and apply
the gamma power 0.8. -/
def invImg (pw : Pw) (c : Img3) (boost : Img ℚ) : Img ℚ :=
  ⟨c.h, c.w, fun y x =>
    let gradNorm := (gradImg pw c boost).px y x / maxGrad pw c boost
    let edgeStrength := clip01 (gradNorm * EDGE_GAIN)
    pw (1 - edgeStrength) EDGE_GAMMA⟩

/-- The contrast normalizer at the end of compute_edge_map: the 0.5th and
99.5th percentiles of the ink field, and a linear rescale clipped to the
unit interval applied whenever high > low (any strictly positive
percentile span). -/
def contrastStretch (a : Img ℚ) : Img ℚ :=
  let low := percentile (pixList a) 0.5
  let high := percentile (pixList a) 99.5
  if low < high then
    ⟨a.h, a.w, fun y x => clip01 ((a.px y x - low) / (high - low))⟩
  else a

/-- compute_edge_map: raw edge map from an RGB byte image, none exactly
when the neighbour-difference helpers raise (h < 2 or w < 2). -/
def computeEdgeMap (pw : Pw) (c : Img3) : Option (Img ℕ) :=
  (computeHueBoost pw (hueImg c) (lumNormImg c) (satImg c)).bind fun boost =>
    some (floatToPil (contrastStretch (invImg pw c boost)))

/-! ## Line tonal equalizer (soft_normalize_lines)

The source extracts arr[mask_lines] (row-major), recomputes statistics of
the current masked values at the start of each pass and writes the updated
values back.  Because every update depends only on the value of the pixel
and on statistics of the whole masked multiset, each pass is embedded as a
pointwise map guarded by the mask condition value < LINE_MASK_THRESH. -/

/-- The current masked (line) values of a float field, in row-major order:
arr[arr < LINE_MASK_THRESH]. -/
def lineVals (a : Img ℚ) : List ℚ :=
  (pixList a).filter (fun v => v < LINE_MASK_THRESH)

/-- Pass A, base normalization: values below the first quartile of the
line values move toward the median by LINE_BRIGHTEN_STRONG, values
between the quartile and the median by LINE_BRIGHTEN_SOFT; the pass is
skipped when median - q25 < 1e-4, and the masked values are clipped to
the unit interval when it runs. -/
def passA (a : Img ℚ) : Img ℚ :=
  let lv := lineVals a
  let q25 := percentile lv 25
  let med := percentile lv 50
  if 1 / 10000 ≤ med - q25 then
    ⟨a.h, a.w, fun y x =>
      let v := a.px y x
      if v < LINE_MASK_THRESH then
        clip01 (if v < q25 then v + LINE_BRIGHTEN_STRONG * (med - v)
                else if v < med then v + LINE_BRIGHTEN_SOFT * (med - v)
                else v)
      else v⟩
  else a

/-- Pass B, brightness equalizer: map the 5th..95th percentile range of
the current line values onto the target band, clip, and keep the mapped
value only where it exceeds the current one; skipped when the percentile
span is below 1e-4. -/
def passB (a : Img ℚ) : Img ℚ :=
  if ENABLE_BRIGHT_EQUALIZER then
    let lv := lineVals a
    let pLow := percentile lv BRIGHT_EQ_LOW_PCT
    let pHigh := percentile lv BRIGHT_EQ_HIGH_PCT
    if 1 / 10000 ≤ pHigh - pLow then
      let targetMin := BRIGHT_EQ_BASE
      let targetMax := max (BRIGHT_EQ_BASE + BRIGHT_EQ_RANGE) (targetMin + 1 / 1000)
      ⟨a.h, a.w, fun y x =>
        let v := a.px y x
        if v < LINE_MASK_THRESH then
          let mapped := clip01 (targetMin + (v - pLow) / (pHigh - pLow) * (targetMax - targetMin))
          if v < mapped then mapped else v
        else v⟩
    else a
  else a

/-- Pass C, global lift: add GLOBAL_LIFT to every line value, floor the
result at MIN_LINE_BRIGHT, and clip to the unit interval. -/
def passC (a : Img ℚ) : Img ℚ :=
  if ENABLE_GLOBAL_LIFT then
    ⟨a.h, a.w, fun y x =>
      let v := a.px y x
      if v < LINE_MASK_THRESH then clip01 (max (v + GLOBAL_LIFT) MIN_LINE_BRIGHT)
      else v⟩
  else a

/-- Pass D, ultra uniformizer: take the line values at or below their 10th
percentile; if their spread is below 1e-4 send them all to the midpoint
of the ultra band, otherwise remap their own min..max range onto the
band; in both cases keep the maximum of the mapped and the current value.
The guard np.any(low_mask) is the nonemptiness test on that sublist. -/
def passD (a : Img ℚ) : Img ℚ :=
  if ENABLE_ULTRA_UNIFORMIZER then
    let lv := lineVals a
    let pUltra := percentile lv ULTRA_LOW_PCT
    let lows := lv.filter (fun v => v ≤ pUltra)
    if lows = [] then a
    else
      let lowMin := minList lows
      let lowMax := maxList lows
      ⟨a.h, a.w, fun y x =>
        let v := a.px y x
        if v < LINE_MASK_THRESH then
          if v ≤ pUltra then
            let mapped :=
              if lowMax - lowMin < 1 / 10000 then (ULTRA_BAND_MIN + ULTRA_BAND_MAX) / 2
              else ULTRA_BAND_MIN + (v - lowMin) / (lowMax - lowMin) * (ULTRA_BAND_MAX - ULTRA_BAND_MIN)
            max mapped v
          else v
        else v⟩
  else a

/-- np.array(img).astype(float32) / 255 on an 8-bit L image. -/
def toFloatL (img : Img ℕ) : Img ℚ :=
  ⟨img.h, img.w, fun y x => (img.px y x : ℚ) / 255⟩

/-- soft_normalize_lines: scale the L-image to floats, return the input
unchanged when no pixel is below the mask threshold, otherwise run the
four passes in order and convert back through float_to_pil. -/
def softNormalizeLines (img : Img ℕ) : Img ℕ :=
  if lineVals (toFloatL img) = [] then img
  else floatToPil (passD (passC (passB (passA (toFloatL img)))))

/-! ## Red/green separator detection and injection -/

/-- Red classification of one unit-cube RGB pixel:
R > 0.4 and R - max(G, B) > 0.12. -/
def isRedB (p : ℚ × ℚ × ℚ) : Bool :=
  decide (0.4 < p.1 ∧ 0.12 < p.1 - max p.2.1 p.2.2)

/-- Green classification of one unit-cube RGB pixel:
G > 0.4 and G - max(R, B) > 0.12. -/
def isGreenB (p : ℚ × ℚ × ℚ) : Bool :=
  decide (0.4 < p.2.1 ∧ 0.12 < p.2.1 - max p.1 p.2.2)

/-- The adjacency test of detect_vertical_red_green_borders at column x,
row y: red left of a green pixel or green left of a red pixel. -/
def rgMatch (c : Img3) (x y : ℕ) : Bool :=
  let l := (toRGBq c).px y (x - 1)
  let r := (toRGBq c).px y x
  (isRedB l && isGreenB r) || (isGreenB l && isRedB r)

/-- Number of rows matching the adjacency test at column x. -/
def rgMatchCount (c : Img3) (x : ℕ) : ℕ :=
  ((List.range c.h).filter (fun y => rgMatch c x y)).length

/-- x_min of the detector: int(w * RG_MIN_MARGIN_FRAC), truncation of
w * 0.02, which is the natural division w / 50. -/
def rgXMin (c : Img3) : ℕ := c.w / 50

/-- x_max of the detector: int(w * 0.98), the natural division 49 w / 50. -/
def rgXMax (c : Img3) : ℕ := 49 * c.w / 50

/-- The run-merging loop of the detector: consecutive candidate columns
collapse to the integer midpoint of the run. -/
def groupRunsAux (start prev : ℕ) : List ℕ → List ℕ
  | [] => [(start + prev) / 2]
  | x :: rest =>
    if x = prev + 1 then groupRunsAux start x rest
    else (start + prev) / 2 :: groupRunsAux x x rest

/-- Merge maximal runs of consecutive candidates into their midpoints. -/
def groupRuns : List ℕ → List ℕ
  | [] => []
  | x :: rest => groupRunsAux x x rest

/-- detect_vertical_red_green_borders: candidate columns are the interior
columns (inside the margins) whose adjacency coverage reaches
RG_MIN_COVERAGE of the rows; runs of consecutive candidates merge to
their midpoints. -/
def detectVerticalRedGreenBorders (c : Img3) : List ℕ :=
  if rgXMax c ≤ rgXMin c + 1 then []
  else
    groupRuns (
      (List.range' (rgXMin c + 1) (rgXMax c - (rgXMin c + 1))).filter
        (fun x => RG_MIN_COVERAGE ≤ (rgMatchCount c x : ℚ) / (c.h : ℚ)))

/-- Column clamp of the injection loop: int(np.clip(x + dx, 0, w - 1)). -/
def clampCol (w : ℕ) (i : ℤ) : ℕ := (min (max i 0) ((w : ℤ) - 1)).toNat

/-- The columns the injection loop writes, for a configured line width:
each detected position extends by dx in -half .. half, clamped into
range. -/
def rgCovered (lineWidth : ℕ) (w : ℕ) (ps : List ℕ) (x : ℕ) : Bool :=
  ps.any fun p =>
    (List.range (2 * (lineWidth / 2) + 1)).any fun k =>
      clampCol w ((p : ℤ) + (k : ℤ) - (lineWidth / 2 : ℕ)) = x

/-- The target value of add_soft_red_green_lines: the median of the
current line values (0.34 when there are none) minus 0.005, clamped
below at 0. -/
def rgTarget (arr : Img ℚ) : ℚ :=
  let lv := lineVals arr
  let medianLine := if lv = [] then 0.34 else percentile lv 50
  max 0 (medianLine - 0.005)

/-- add_soft_red_green_lines: inject the detected separators into the edge
image by writing min(current, target) over each covered column, then
convert back through float_to_pil; the edge image passes through
unchanged when no separator is detected. -/
def addSoftRedGreenLines (lineWidth : ℕ) (edge : Img ℕ) (c : Img3) : Img ℕ :=
  let ps := detectVerticalRedGreenBorders c
  if ps = [] then edge
  else
    let arr := toFloatL edge
    let target := rgTarget arr
    floatToPil ⟨edge.h, edge.w, fun y x =>
      if rgCovered lineWidth edge.w ps x then min (arr.px y x) target else arr.px y x⟩

/-! ## Frame compositor (add_border)

add_border draws, on a copy of the image, the rectangle of PIL ImageDraw
with corners (offset, offset) and (w - 1 - offset, h - 1 - offset) where
offset = width // 2, outline value 0 and outline width width.  PIL paints
an unfilled rectangle of width n by, for each i < n, the horizontal lines
at rows y0 + i and y1 - i spanning x0..x1 and the vertical lines at
columns x0 + i and x1 - i spanning y0..y1: the outline extends inward
from the corner box. -/

/-- The set of pixels painted by the PIL rectangle call of add_border. -/
def borderBand (h w width : ℕ) (y x : ℕ) : Bool :=
  let offset : ℤ := (width / 2 : ℕ)
  let x1 : ℤ := (w : ℤ) - 1 - offset
  let y1 : ℤ := (h : ℤ) - 1 - offset
  (decide (offset ≤ (x : ℤ) ∧ (x : ℤ) ≤ x1) &&
    (List.range width).any fun i =>
      decide ((y : ℤ) = offset + i ∨ (y : ℤ) = y1 - i)) ||
  (decide (offset ≤ (y : ℤ) ∧ (y : ℤ) ≤ y1) &&
    (List.range width).any fun i =>
      decide ((x : ℤ) = offset + i ∨ (x : ℤ) = x1 - i))

/-- add_border: the painted pixels become 0, every other pixel keeps its
value. -/
def addBorder (img : Img ℕ) (width : ℕ) : Img ℕ :=
  ⟨img.h, img.w, fun y x =>
    if borderBand img.h img.w width y x then 0 else img.px y x⟩

/-! ## Public pipeline (run_edge_pipeline) -/

/-- run_edge_pipeline: edge map, optional soft normalization, separator
injection and the optional border; enable_border = none defers to the
global ADD_BORDER configuration.  The result is none exactly when
compute_edge_map raises in the neighbour-difference helpers. -/
def runEdgePipeline (pw : Pw) (c : Img3) (enableBorder : Option Bool) : Option (Img ℕ) :=
  (computeEdgeMap pw c).bind fun e =>
    let e1 := if LINE_SOFT_NORMALIZE then softNormalizeLines e else e
    let e2 := addSoftRedGreenLines RG_LINE_WIDTH e1 c
    some (if enableBorder.getD ADD_BORDER then addBorder e2 BORDER_WIDTH_PX else e2)

/-! ## Line styles (line_style.py) -/

def LINE_STYLE_THIN : String := "thin"

def LINE_STYLE_BOLD : String := "bold"

/-- Python str.strip on a character list: drop whitespace from both ends. -/
def stripChars (l : List Char) : List Char :=
  ((l.dropWhile Char.isWhitespace).reverse.dropWhile Char.isWhitespace).reverse

/-- The style normalization of apply_line_style: None falls back to thin,
a given string is stripped of surrounding whitespace and lowercased
(style.strip().lower()), modelled directly on the character list. -/
def styleNormalized (style : Option String) : String :=
  match style with
  | none => LINE_STYLE_THIN
  | some s => String.mk ((stripChars s.data).map Char.toLower)

/-- apply_line_style: the adaptive smoothing runs only for the normalized
style bold; every other style returns the image unchanged.  The Gaussian
smoothing itself is an explicit function parameter: no statement below
constrains its values. -/
def applyLineStyle (smooth : Img3 → Img3) (style : Option String) (img : Img3) : Img3 :=
  if styleNormalized style = LINE_STYLE_BOLD then smooth img else img

/-- The smoothing sigma of _adaptive_smooth_rgb:
np.clip(0.8 * min(h, w) / 512, 0.6, 1.8). -/
def sigmaBold (h w : ℕ) : ℚ :=
  let baseSigma : ℚ := 0.8
  let scale : ℚ := ((min h w : ℕ) : ℚ) / 512
  min (max (baseSigma * scale) 0.6) 1.8

/-! ## Concrete inputs used by closed statements -/

def whitePx : ℕ × ℕ × ℕ := (255, 255, 255)

/-- A 1 x 1 white RGB image (smallest valid input, H = W = 1). -/
def img1 : Img3 := ⟨1, 1, fun _ _ => whitePx⟩

/-- A 2 x 2 white RGB image. -/
def img2W : Img3 := ⟨2, 2, fun _ _ => whitePx⟩

/-- A 4 x 4 white RGB image. -/
def img4W : Img3 := ⟨4, 4, fun _ _ => whitePx⟩

/-- A 3 x 3 grayscale RGB image: two black rows above one white row.  Its
normalized luminance has a purely vertical transition at the centre. -/
def cGray3 : Img3 := ⟨3, 3, fun y _ => if y = 2 then whitePx else (0, 0, 0)⟩

/-- A 1 x 3 all-white L edge image: no pixel is below the line mask
threshold. -/
def edge3 : Img ℕ := ⟨1, 3, fun _ _ => 255⟩

/-- A 1 x 3 RGB image red, green, black: one single red/green adjacency
at column 1. -/
def rgb3 : Img3 :=
  ⟨1, 3, fun _ x =>
    match x with
    | 0 => (255, 0, 0)
    | 1 => (0, 255, 0)
    | _ => (0, 0, 0)⟩

/-- A 2 x 2 ink field with percentile span 197/20000000, strictly positive
but far below 1e-4. -/
def fieldC4 : Img ℚ := ⟨2, 2, fun y x => if y = 0 ∧ x = 0 then 0 else 1 / 100000⟩

/-- A 2 x 2 ink field with two zeros and two ones. -/
def fieldC4W : Img ℚ := ⟨2, 2, fun y _ => if y = 0 then 0 else 1⟩

/-- A 1 x 2 float field with one masked value and one background value. -/
def fieldC3 : Img ℚ := ⟨1, 2, fun _ x => if x = 0 then 1 / 2 else 1⟩

/-- A 1 x 1 L image holding the single byte 255. -/
def imgC7 : Img ℕ := ⟨1, 1, fun _ _ => 255⟩

/-- The style string bold in capitals with surrounding whitespace. -/
def boldSpaced : String := " BOLD "

/-- The style string thin in capitals. -/
def thinUpper : String := "THIN"

/-! ## Helper lemmas -/

theorem clip01_eq_self {x : ℚ} (h0 : 0 ≤ x) (h1 : x ≤ 1) : clip01 x = x := by
  unfold clip01
  rw [max_eq_left h0, min_eq_left h1]

theorem clip01_mono {x y : ℚ} (h : x ≤ y) : clip01 x ≤ clip01 y := by
  unfold clip01
  exact min_le_min (max_le_max h le_rfl) le_rfl

theorem floatToPilByte_mono {x y : ℚ} (h : x ≤ y) : floatToPilByte x ≤ floatToPilByte y := by
  unfold floatToPilByte
  exact Int.toNat_le_toNat (Int.floor_le_floor (by nlinarith [clip01_mono h]))

theorem floatToPilByte_byte (b : ℕ) (hb : b ≤ 255) : floatToPilByte ((b : ℚ) / 255) = b := by
  unfold floatToPilByte
  rw [clip01_eq_self (by positivity) (by rw [div_le_one (by norm_num)]; exact_mod_cast hb)]
  rw [div_mul_cancel₀ _ (by norm_num)]
  rw [Int.floor_natCast]
  exact Int.toNat_natCast b

theorem floatToPil_h (a : Img ℚ) : (floatToPil a).h = a.h := rfl

theorem floatToPil_w (a : Img ℚ) : (floatToPil a).w = a.w := rfl

theorem passA_h (a : Img ℚ) : (passA a).h = a.h := by
  unfold passA; dsimp only; split <;> rfl

theorem passA_w (a : Img ℚ) : (passA a).w = a.w := by
  unfold passA; dsimp only; split <;> rfl

theorem passB_h (a : Img ℚ) : (passB a).h = a.h := by
  unfold passB; dsimp only; split <;> [skip; rfl]; split <;> rfl

theorem passB_w (a : Img ℚ) : (passB a).w = a.w := by
  unfold passB; dsimp only; split <;> [skip; rfl]; split <;> rfl

theorem passC_h (a : Img ℚ) : (passC a).h = a.h := by
  unfold passC; dsimp only; split <;> rfl

theorem passC_w (a : Img ℚ) : (passC a).w = a.w := by
  unfold passC; dsimp only; split <;> rfl

theorem passD_h (a : Img ℚ) : (passD a).h = a.h := by
  unfold passD; dsimp only; split <;> [skip; rfl]; split <;> rfl

theorem passD_w (a : Img ℚ) : (passD a).w = a.w := by
  unfold passD; dsimp only; split <;> [skip; rfl]; split <;> rfl

theorem softNormalizeLines_h (img : Img ℕ) : (softNormalizeLines img).h = img.h := by
  unfold softNormalizeLines
  split
  · rfl
  · rw [floatToPil_h, passD_h, passC_h, passB_h, passA_h]; rfl

theorem softNormalizeLines_w (img : Img ℕ) : (softNormalizeLines img).w = img.w := by
  unfold softNormalizeLines
  split
  · rfl
  · rw [floatToPil_w, passD_w, passC_w, passB_w, passA_w]; rfl

theorem addSoftRedGreenLines_h (lw : ℕ) (edge : Img ℕ) (c : Img3) :
    (addSoftRedGreenLines lw edge c).h = edge.h := by
  unfold addSoftRedGreenLines; dsimp only; split <;> rfl

theorem addSoftRedGreenLines_w (lw : ℕ) (edge : Img ℕ) (c : Img3) :
    (addSoftRedGreenLines lw edge c).w = edge.w := by
  unfold addSoftRedGreenLines; dsimp only; split <;> rfl

theorem contrastStretch_h (a : Img ℚ) : (contrastStretch a).h = a.h := by
  unfold contrastStretch; dsimp only; split <;> rfl

theorem contrastStretch_w (a : Img ℚ) : (contrastStretch a).w = a.w := by
  unfold contrastStretch; dsimp only; split <;> rfl

theorem diffLinear_eq_some (a : Img ℚ) (hh : 2 ≤ a.h) (hw : 2 ≤ a.w) :
    ∃ d, diffLinear a = some d := by
  unfold diffLinear
  rw [if_neg (by omega), if_neg (by omega)]
  exact ⟨_, rfl⟩

theorem diffCircularHue_eq_some (a : Img ℚ) (hh : 2 ≤ a.h) (hw : 2 ≤ a.w) :
    ∃ d, diffCircularHue a = some d := by
  unfold diffCircularHue
  rw [if_neg (by omega), if_neg (by omega)]
  exact ⟨_, rfl⟩

theorem computeEdgeMap_eq_some (pw : Pw) (c : Img3) (hh : 2 ≤ c.h) (hw : 2 ≤ c.w) :
    ∃ e, computeEdgeMap pw c = some e ∧ e.h = c.h ∧ e.w = c.w := by
  obtain ⟨dH, hdH⟩ := diffCircularHue_eq_some (hueImg c) hh hw
  obtain ⟨dL, hdL⟩ := diffLinear_eq_some (lumNormImg c) hh hw
  unfold computeEdgeMap computeHueBoost
  rw [hdH, hdL]
  refine ⟨_, rfl, ?_, ?_⟩
  · rw [floatToPil_h, contrastStretch_h]; rfl
  · rw [floatToPil_w, contrastStretch_w]; rfl

theorem computeEdgeMap_dims {pw : Pw} {c : Img3} {e : Img ℕ}
    (he : computeEdgeMap pw c = some e) : e.h = c.h ∧ e.w = c.w := by
  unfold computeEdgeMap computeHueBoost at he
  rcases h1 : diffCircularHue (hueImg c) with _ | dH <;> rw [h1] at he
  · simp at he
  rcases h2 : diffLinear (lumNormImg c) with _ | dL <;> rw [h2] at he
  · simp at he
  simp only [Option.some_bind, Option.some.injEq] at he
  subst he
  constructor
  · rw [floatToPil_h, contrastStretch_h]; rfl
  · rw [floatToPil_w, contrastStretch_w]; rfl

theorem filter_eq_singleton_of_nodup {p : ℕ → Bool} :
    ∀ (l : List ℕ) (a : ℕ), l.Nodup → a ∈ l → p a = true →
      (∀ x ∈ l, p x = true → x = a) → l.filter p = [a]
  | [], a, _, ha, _, _ => absurd ha (List.not_mem_nil a)
  | b :: t, a, hnd, ha, hpa, honly => by
    rcases List.mem_cons.mp ha with rfl | hat
    · rw [List.filter_cons_of_pos hpa]
      have ht : t.filter p = [] := by
        rw [List.filter_eq_nil_iff]
        intro z hz hpz
        exact (List.nodup_cons.mp hnd).1 (honly z (List.mem_cons_of_mem _ hz) hpz ▸ hz)
      rw [ht]
    · have hpb : p b = false := by
        cases hpb : p b
        · rfl
        · exact absurd (honly b (List.mem_cons_self b t) hpb ▸ hat) (List.nodup_cons.mp hnd).1
      rw [List.filter_cons_of_neg (by simp [hpb])]
      exact filter_eq_singleton_of_nodup t a (List.nodup_cons.mp hnd).2 hat hpa
        (fun z hz => honly z (List.mem_cons_of_mem _ hz))

theorem passB_le (a : Img ℚ) (y x : ℕ) : a.px y x ≤ (passB a).px y x := by
  unfold passB
  split
  · dsimp only
    split
    · dsimp only
      split
      · split
        · exact le_of_lt (by assumption)
        · exact le_rfl
      · exact le_rfl
    · exact le_rfl
  · exact le_rfl

theorem passC_le (a : Img ℚ) (y x : ℕ) (h1 : a.px y x ≤ 1) :
    a.px y x ≤ (passC a).px y x := by
  unfold passC
  split
  · dsimp only
    split
    · unfold clip01
      refine le_min (le_max_of_le_left (le_max_of_le_left ?_)) h1
      unfold GLOBAL_LIFT
      linarith
    · exact le_rfl
  · exact le_rfl

theorem passD_le (a : Img ℚ) (y x : ℕ) : a.px y x ≤ (passD a).px y x := by
  unfold passD
  split
  · dsimp only
    split
    · exact le_rfl
    · dsimp only
      split
      · split
        · exact le_max_right _ _
        · exact le_rfl
      · exact le_rfl
  · exact le_rfl

theorem passA_unmasked (a : Img ℚ) (y x : ℕ) (h : ¬ a.px y x < LINE_MASK_THRESH) :
    (passA a).px y x = a.px y x := by
  unfold passA
  dsimp only
  split
  · dsimp only; rw [if_neg h]
  · rfl

theorem passB_unmasked (a : Img ℚ) (y x : ℕ) (h : ¬ a.px y x < LINE_MASK_THRESH) :
    (passB a).px y x = a.px y x := by
  unfold passB
  split
  · dsimp only
    split
    · dsimp only; rw [if_neg h]
    · rfl
  · rfl

theorem passC_unmasked (a : Img ℚ) (y x : ℕ) (h : ¬ a.px y x < LINE_MASK_THRESH) :
    (passC a).px y x = a.px y x := by
  unfold passC
  split
  · dsimp only; rw [if_neg h]
  · rfl

theorem passD_unmasked (a : Img ℚ) (y x : ℕ) (h : ¬ a.px y x < LINE_MASK_THRESH) :
    (passD a).px y x = a.px y x := by
  unfold passD
  split
  · dsimp only
    split
    · rfl
    · dsimp only; rw [if_neg h]
  · rfl

/-! ## Claim theorems -/

/-- C3: for every input field and every pixel (in particular every
line-mask pixel, value below 0.985), the value after each of Pass B
(brightness equalizer), Pass C (global lift) and Pass D (ultra
uniformizer) of soft_normalize_lines is at least the value at entry to
that pass: none of the three passes darkens a pixel. -/
theorem c3_passes_brighten_only (a : Img ℚ)
    (hb : ∀ y x, 0 ≤ a.px y x ∧ a.px y x ≤ 1) (y x : ℕ) :
    a.px y x ≤ (passB a).px y x ∧
    a.px y x ≤ (passC a).px y x ∧
    a.px y x ≤ (passD a).px y x :=
  ⟨passB_le a y x, passC_le a y x (hb y x).2, passD_le a y x⟩

/-- Witness for C3 at the concrete field fieldC3 and its masked pixel. -/
theorem c3_passes_brighten_only_witness :
    fieldC3.px 0 0 ≤ (passB fieldC3).px 0 0 ∧
    fieldC3.px 0 0 ≤ (passC fieldC3).px 0 0 ∧
    fieldC3.px 0 0 ≤ (passD fieldC3).px 0 0 :=
  c3_passes_brighten_only fieldC3
    (by intro y x; unfold fieldC3; dsimp only; split <;> norm_num) 0 0

/-- C7: soft_normalize_lines never modifies a pixel outside the line mask:
every pixel whose grayscale value (byte over 255) is at least the mask
threshold 0.985 keeps exactly its input byte in the output. -/
theorem c7_background_untouched (img : Img ℕ) (hb : ∀ y x, img.px y x ≤ 255) (y x : ℕ)
    (hmask : LINE_MASK_THRESH ≤ (toFloatL img).px y x) :
    (softNormalizeLines img).px y x = img.px y x := by
  have hnm : ¬ (toFloatL img).px y x < LINE_MASK_THRESH := not_lt.mpr hmask
  unfold softNormalizeLines
  split
  · rfl
  · show floatToPilByte ((passD (passC (passB (passA (toFloatL img))))).px y x) = img.px y x
    have hA := passA_unmasked (toFloatL img) y x hnm
    have hB := passB_unmasked (passA (toFloatL img)) y x (by rw [hA]; exact hnm)
    have hC := passC_unmasked (passB (passA (toFloatL img))) y x (by rw [hB, hA]; exact hnm)
    have hD := passD_unmasked (passC (passB (passA (toFloatL img)))) y x
      (by rw [hC, hB, hA]; exact hnm)
    rw [hD, hC, hB, hA]
    exact floatToPilByte_byte (img.px y x) (hb y x)

/-- Witness for C7 at the 1 x 1 image holding the byte 255. -/
theorem c7_background_untouched_witness :
    (softNormalizeLines imgC7).px 0 0 = imgC7.px 0 0 :=
  c7_background_untouched imgC7 (fun _ _ => le_refl 255) 0 0
    (by norm_num [toFloatL, imgC7, LINE_MASK_THRESH])

/-- C9: in bold mode the smoothing sigma equals
0.8 * min(H, W) / 512 clamped to the band 0.6 .. 1.8, and as a function
of min(H, W) it is monotonically nondecreasing: a render with the larger
min(H, W) receives a sigma at least as large. -/
theorem c9_sigma_monotone (h w h' w' : ℕ) (hmin : min h' w' ≤ min h w) :
    sigmaBold h' w' ≤ sigmaBold h w ∧
    (0.6 ≤ sigmaBold h w ∧ sigmaBold h w ≤ 1.8) ∧
    sigmaBold h w = min (max (0.8 * ((min h w : ℕ) : ℚ) / 512) 0.6) 1.8 := by
  refine ⟨?_, ⟨?_, ?_⟩, ?_⟩
  · unfold sigmaBold
    dsimp only
    have hc : ((min h' w' : ℕ) : ℚ) ≤ ((min h w : ℕ) : ℚ) := by exact_mod_cast hmin
    have h2 : (0.8 : ℚ) * (((min h' w' : ℕ) : ℚ) / 512) ≤
        0.8 * (((min h w : ℕ) : ℚ) / 512) := by linarith
    exact min_le_min (max_le_max h2 le_rfl) le_rfl
  · unfold sigmaBold
    dsimp only
    exact le_min (le_max_right _ _) (by norm_num)
  · unfold sigmaBold
    dsimp only
    exact min_le_right _ _
  · unfold sigmaBold
    dsimp only
    rw [mul_div_assoc]

/-- Witness for C9: a 512-square render against a 256-square render. -/
theorem c9_sigma_monotone_witness :
    sigmaBold 256 256 ≤ sigmaBold 512 512 ∧
    (0.6 ≤ sigmaBold 512 512 ∧ sigmaBold 512 512 ≤ 1.8) ∧
    sigmaBold 512 512 = min (max (0.8 * ((min 512 512 : ℕ) : ℚ) / 512) 0.6) 1.8 :=
  c9_sigma_monotone 512 512 256 256 (by decide)

/-- C10: apply_line_style is the identity whenever the normalized style
(None falls back to thin; a string is stripped and lowercased) differs
from bold, and the capitalized, whitespace-padded bold string does select
the smoothing branch. -/
theorem c10_non_bold_identity :
    (∀ (smooth : Img3 → Img3) (style : Option String) (img : Img3),
        styleNormalized style ≠ LINE_STYLE_BOLD → applyLineStyle smooth style img = img) ∧
    (∀ (smooth : Img3 → Img3) (img : Img3),
        applyLineStyle smooth (some boldSpaced) img = smooth img) := by
  constructor
  · intro smooth style img hne
    unfold applyLineStyle
    rw [if_neg hne]
  · intro smooth img
    unfold applyLineStyle
    rw [if_pos (by decide)]

/-- Witness for C10: the capitalized thin string leaves a concrete image
unchanged. -/
theorem c10_non_bold_identity_witness :
    applyLineStyle id (some thinUpper) img1 = img1 :=
  c10_non_bold_identity.1 id (some thinUpper) img1 (by decide)

/-- C2 (amended): the luminance gradient of the Gradient Magnitude Engine
is the Euclidean Scharr magnitude of skimage, sqrt((H^2 + V^2) / 2)
(represented here through its square, gradLumSq), not the elementwise
maximum of the absolute responses: at every pixel the squared gradient is
bounded above by the square of the max combination and below by half of
it, with equality on the upper bound exactly when the two responses have
equal magnitude.  The max combination appears in the source only inside
the neighbour-difference helpers of the hue boost. -/
theorem c2_scharr_euclidean_bounds (a : Img ℚ) (y x : ℕ) :
    gradLumSq a y x ≤ scharrMaxCombo a y x ^ 2 ∧
    scharrMaxCombo a y x ^ 2 ≤ 2 * gradLumSq a y x ∧
    (gradLumSq a y x = scharrMaxCombo a y x ^ 2 ↔ |scharrH a y x| = |scharrV a y x|) := by
  have habs : scharrMaxCombo a y x = max |scharrH a y x| |scharrV a y x| := rfl
  have hgs : gradLumSq a y x = (scharrH a y x ^ 2 + scharrV a y x ^ 2) / 2 := rfl
  rw [habs, hgs]
  rcases le_total |scharrH a y x| |scharrV a y x| with h | h
  · rw [max_eq_right h]
    have hpq : scharrH a y x ^ 2 ≤ scharrV a y x ^ 2 := by
      rw [← sq_abs (scharrH a y x), ← sq_abs (scharrV a y x)]
      exact pow_le_pow_left₀ (abs_nonneg _) h 2
    refine ⟨by rw [← sq_abs (scharrV a y x)] at hpq ⊢; linarith,
            by rw [← sq_abs (scharrV a y x)]; nlinarith [sq_nonneg (scharrH a y x)], ?_⟩
    rw [sq_abs]
    constructor
    · intro he
      exact (sq_eq_sq_iff_abs_eq_abs _ _).mp (by linarith)
    · intro he
      have : scharrH a y x ^ 2 = scharrV a y x ^ 2 := (sq_eq_sq_iff_abs_eq_abs _ _).mpr he
      linarith
  · rw [max_eq_left h]
    have hpq : scharrV a y x ^ 2 ≤ scharrH a y x ^ 2 := by
      rw [← sq_abs (scharrH a y x), ← sq_abs (scharrV a y x)]
      exact pow_le_pow_left₀ (abs_nonneg _) h 2
    refine ⟨by rw [← sq_abs (scharrH a y x)] at hpq ⊢; linarith,
            by rw [← sq_abs (scharrH a y x)]; nlinarith [sq_nonneg (scharrV a y x)], ?_⟩
    rw [sq_abs]
    constructor
    · intro he
      exact (sq_eq_sq_iff_abs_eq_abs _ _).mp (by linarith)
    · intro he
      have : scharrH a y x ^ 2 = scharrV a y x ^ 2 := (sq_eq_sq_iff_abs_eq_abs _ _).mpr he
      linarith

/-- Counterexample for C2 as stated: on the normalized luminance of the
concrete image cGray3 (a purely vertical black-to-white transition) the
centre pixel has squared Scharr magnitude 1/2, while the square of the
elementwise max combination is 1; since both the gradient of the code
(the real square root of gradLumSq) and the max combination of the claim
are nonnegative, their squares differing means the values differ. -/
theorem c2_scharr_not_max_combo :
    gradLumSq (lumNormImg cGray3) 1 1 ≠ scharrMaxCombo (lumNormImg cGray3) 1 1 ^ 2 := by
  with_unfolding_all decide

/-- Witness instantiating the amended C2 bounds at a concrete pixel. -/
theorem c2_scharr_euclidean_bounds_witness :
    gradLumSq (lumNormImg cGray3) 1 1 ≤ scharrMaxCombo (lumNormImg cGray3) 1 1 ^ 2 :=
  (c2_scharr_euclidean_bounds (lumNormImg cGray3) 1 1).1

/-- C4 (amended): the contrast normalizer rescales the ink field onto the
unit interval, clipping, exactly when the 99.5th percentile strictly
exceeds the 0.5th percentile; the field passes through unchanged exactly
when the span is zero (or negative).  The 1e-4 guard of the claim does
not exist at this call site. -/
theorem c4_contrast_stretch_guard (a : Img ℚ) :
    (percentile (pixList a) 0.5 < percentile (pixList a) 99.5 →
      ∀ y x, (contrastStretch a).px y x =
        clip01 ((a.px y x - percentile (pixList a) 0.5) /
          (percentile (pixList a) 99.5 - percentile (pixList a) 0.5))) ∧
    (percentile (pixList a) 99.5 ≤ percentile (pixList a) 0.5 →
      ∀ y x, (contrastStretch a).px y x = a.px y x) := by
  constructor
  · intro hlh y x
    unfold contrastStretch
    dsimp only
    rw [if_pos hlh]
  · intro hhl y x
    unfold contrastStretch
    dsimp only
    rw [if_neg (not_lt.mpr hhl)]

/-- Counterexample for C4 as stated: the concrete ink field fieldC4 has
percentile span 197/20000000, which is positive but at most 1e-4 — the
claim says such a field is left unrescaled — yet the contrast normalizer
rescales it: the pixel at (0, 1) changes from 1/100000 to 1. -/
theorem c4_contrast_stretch_small_span_rescaled :
    percentile (pixList fieldC4) 99.5 - percentile (pixList fieldC4) 0.5 ≤ 1 / 10000 ∧
    (contrastStretch fieldC4).px 0 1 ≠ fieldC4.px 0 1 := by
  constructor
  · with_unfolding_all decide
  · with_unfolding_all decide

/-- Witness instantiating the amended C4 on a field with positive span. -/
theorem c4_contrast_stretch_guard_witness :
    (contrastStretch fieldC4W).px 0 0 =
      clip01 ((fieldC4W.px 0 0 - percentile (pixList fieldC4W) 0.5) /
        (percentile (pixList fieldC4W) 99.5 - percentile (pixList fieldC4W) 0.5)) :=
  (c4_contrast_stretch_guard fieldC4W).1 (by with_unfolding_all decide) 0 0

/-- C5 (amended): for every detected separator column p and the configured
line width, each pixel of the written band of add_soft_red_green_lines
receives min(current value, target) converted through float_to_pil, where
target is the median of the current line values — with the fallback
median 0.34 when no line pixel exists — minus 0.005, clamped below at 0
(so the no-line-pixel target is 0.335, not 0.34); consequently no band
pixel ever becomes lighter than it was. -/
theorem c5_separator_band_min (lw : ℕ) (edge : Img ℕ) (c : Img3)
    (hb : ∀ y x, edge.px y x ≤ 255)
    (p : ℕ) (hp : p ∈ detectVerticalRedGreenBorders c)
    (k : ℕ) (hk : k ≤ 2 * (lw / 2)) (y : ℕ) :
    (addSoftRedGreenLines lw edge c).px y
        (clampCol edge.w ((p : ℤ) + (k : ℤ) - ((lw / 2 : ℕ) : ℤ))) =
      floatToPilByte (min
        ((toFloatL edge).px y (clampCol edge.w ((p : ℤ) + (k : ℤ) - ((lw / 2 : ℕ) : ℤ))))
        (rgTarget (toFloatL edge))) ∧
    (addSoftRedGreenLines lw edge c).px y
        (clampCol edge.w ((p : ℤ) + (k : ℤ) - ((lw / 2 : ℕ) : ℤ))) ≤
      edge.px y (clampCol edge.w ((p : ℤ) + (k : ℤ) - ((lw / 2 : ℕ) : ℤ))) := by
  have hps : detectVerticalRedGreenBorders c ≠ [] := List.ne_nil_of_mem hp
  have hcov : rgCovered lw edge.w (detectVerticalRedGreenBorders c)
      (clampCol edge.w ((p : ℤ) + (k : ℤ) - ((lw / 2 : ℕ) : ℤ))) = true := by
    unfold rgCovered
    rw [List.any_eq_true]
    refine ⟨p, hp, ?_⟩
    rw [List.any_eq_true]
    exact ⟨k, List.mem_range.mpr (by omega), by simp⟩
  have hpx : (addSoftRedGreenLines lw edge c).px y
      (clampCol edge.w ((p : ℤ) + (k : ℤ) - ((lw / 2 : ℕ) : ℤ))) =
      floatToPilByte (min
        ((toFloatL edge).px y (clampCol edge.w ((p : ℤ) + (k : ℤ) - ((lw / 2 : ℕ) : ℤ))))
        (rgTarget (toFloatL edge))) := by
    unfold addSoftRedGreenLines
    dsimp only
    rw [if_neg hps]
    show floatToPilByte
      (if rgCovered lw edge.w (detectVerticalRedGreenBorders c)
          (clampCol edge.w ((p : ℤ) + (k : ℤ) - ((lw / 2 : ℕ) : ℤ))) = true
       then min ((toFloatL edge).px y (clampCol edge.w ((p : ℤ) + (k : ℤ) - ((lw / 2 : ℕ) : ℤ))))
              (rgTarget (toFloatL edge))
       else (toFloatL edge).px y (clampCol edge.w ((p : ℤ) + (k : ℤ) - ((lw / 2 : ℕ) : ℤ)))) = _
    rw [if_pos hcov]
  refine ⟨hpx, ?_⟩
  rw [hpx]
  exact le_trans (floatToPilByte_mono (min_le_left _ _))
    (le_of_eq (floatToPilByte_byte _ (hb y _)))

/-- Counterexample for C5 as stated: on the all-white edge image edge3
(no line pixels) and the concrete color image rgb3 with one separator at
column 1, the claim predicts the band pixel becomes
min(current, 0.34) — byte 86; the code writes min(current, 0.335) — byte
85. -/
theorem c5_no_line_target_off :
    (addSoftRedGreenLines 1 edge3 rgb3).px 0 1 ≠
      floatToPilByte (min ((edge3.px 0 1 : ℚ) / 255) (34 / 100)) := by
  with_unfolding_all decide

/-- Witness for the amended C5 at the concrete separator of rgb3. -/
theorem c5_separator_band_min_witness :
    (addSoftRedGreenLines 1 edge3 rgb3).px 0
        (clampCol edge3.w ((1 : ℤ) + (0 : ℤ) - ((1 / 2 : ℕ) : ℤ))) =
      floatToPilByte (min
        ((toFloatL edge3).px 0 (clampCol edge3.w ((1 : ℤ) + (0 : ℤ) - ((1 / 2 : ℕ) : ℤ))))
        (rgTarget (toFloatL edge3))) ∧
    (addSoftRedGreenLines 1 edge3 rgb3).px 0
        (clampCol edge3.w ((1 : ℤ) + (0 : ℤ) - ((1 / 2 : ℕ) : ℤ))) ≤
      edge3.px 0 (clampCol edge3.w ((1 : ℤ) + (0 : ℤ) - ((1 / 2 : ℕ) : ℤ))) :=
  c5_separator_band_min 1 edge3 rgb3 (fun _ _ => le_refl 255) 1
    (by with_unfolding_all decide) 0 (by decide) 0

/-- C8: a synthetic image with a single red/green vertical adjacency at
column x0 (no adjacency matches anywhere else), covering at least a
quarter of the rows, with x0 strictly inside the detector margins, yields
exactly the separator list consisting of x0 itself (one separator, zero
pixels away from x0). -/
theorem c8_single_adjacency_detected (c : Img3) (x₀ : ℕ)
    (hh : 0 < c.h)
    (hlo : rgXMin c + 1 ≤ x₀) (hhi : x₀ < rgXMax c)
    (hcov : c.h ≤ 4 * rgMatchCount c x₀)
    (hsingle : ∀ x, rgXMin c + 1 ≤ x → x < rgXMax c → x ≠ x₀ →
      ∀ y, rgMatch c x y = false) :
    detectVerticalRedGreenBorders c = [x₀] := by
  unfold detectVerticalRedGreenBorders
  rw [if_neg (by omega)]
  rw [filter_eq_singleton_of_nodup _ x₀ (List.nodup_range' _ _)
    (by rw [List.mem_range'_1]; omega)
    (by
      rw [decide_eq_true_eq]
      have hq : (0 : ℚ) < (c.h : ℚ) := by exact_mod_cast hh
      have hc : ((c.h : ℕ) : ℚ) ≤ 4 * ((rgMatchCount c x₀ : ℕ) : ℚ) := by exact_mod_cast hcov
      rw [RG_MIN_COVERAGE, le_div_iff₀ hq]
      norm_num
      linarith)
    (by
      intro z hz hpz
      by_contra hne
      rw [List.mem_range'_1] at hz
      have hz0 : rgMatchCount c z = 0 := by
        unfold rgMatchCount
        rw [List.length_eq_zero, List.filter_eq_nil_iff]
        intro y hy
        simp [hsingle z (by omega) (by omega) hne y]
      rw [decide_eq_true_eq, hz0] at hpz
      norm_num [RG_MIN_COVERAGE] at hpz)]
  simp only [groupRuns, groupRunsAux]
  congr 1
  omega

/-- Witness for C8: the 1 x 3 image red, green, black has its single
adjacency at column 1 and the detector returns exactly that column. -/
theorem c8_single_adjacency_detected_witness :
    detectVerticalRedGreenBorders rgb3 = [1] :=
  c8_single_adjacency_detected rgb3 1 (by decide) (by decide) (by decide)
    (by with_unfolding_all decide)
    (by
      intro x h1 h2 hx y
      have hx1 : x = 1 := by
        have e1 : rgXMin rgb3 = 0 := by decide
        have e2 : rgXMax rgb3 = 2 := by decide
        omega
      exact absurd hx1 hx)

/-- C1 (amended): for every input image with H, W at least 2 (and any
power semantics), run_edge_pipeline with the default border setting runs
to completion and returns a complete H x W single-channel output; for
H = 1 or W = 1 the neighbour-difference helpers raise inside the gradient
stage (see the counterexample), so totality holds exactly on H, W ≥ 2. -/
theorem c1_pipeline_total_h2w2 (pw : Pw) (c : Img3) (hh : 2 ≤ c.h) (hw : 2 ≤ c.w) :
    (runEdgePipeline pw c none).map (fun o => (o.h, o.w)) = some (c.h, c.w) := by
  obtain ⟨e, he, heh, hew⟩ := computeEdgeMap_eq_some pw c hh hw
  unfold runEdgePipeline
  rw [he]
  show some ((addSoftRedGreenLines RG_LINE_WIDTH (softNormalizeLines e) c).h,
      (addSoftRedGreenLines RG_LINE_WIDTH (softNormalizeLines e) c).w) = some (c.h, c.w)
  rw [addSoftRedGreenLines_h, softNormalizeLines_h, heh,
      addSoftRedGreenLines_w, softNormalizeLines_w, hew]

/-- Counterexample for C1 as stated: on the valid 1 x 1 white input the
pipeline does not return an output at all — np.pad with mode edge raises
on the empty differenced axis inside the neighbour-difference helpers, so
the run aborts (modelled as none). -/
theorem c1_pipeline_raises_on_1x1 : runEdgePipeline pwStd img1 none = none := by
  with_unfolding_all rfl

/-- Witness for the amended C1 at a concrete 2 x 2 white image. -/
theorem c1_pipeline_total_h2w2_witness :
    (runEdgePipeline pwStd img2W none).map (fun o => (o.h, o.w)) = some (2, 2) :=
  c1_pipeline_total_h2w2 pwStd img2W (by decide) (by decide)

/-- C6 (amended): with the frame enabled, the pipeline output equals
add_border applied to the non-bordered output: every pixel of the painted
band (the rectangle outline of width BORDER_WIDTH_PX inset
BORDER_WIDTH_PX / 2 pixels from the image bounds, extending inward)
becomes 0, and every other pixel — including the outermost
BORDER_WIDTH_PX / 2 ring, which the claim wrongly includes in the zeroed
region — keeps the value of the non-bordered output. -/
theorem c6_border_region (pw : Pw) (c : Img3) (hh : 4 ≤ c.h) (hw : 4 ≤ c.w) (y x : ℕ) :
    (runEdgePipeline pw c (some true)).map (fun o => o.px y x) =
      (runEdgePipeline pw c none).map
        (fun o => if borderBand c.h c.w BORDER_WIDTH_PX y x then 0 else o.px y x) := by
  rcases he : computeEdgeMap pw c with _ | e
  · unfold runEdgePipeline
    rw [he]
    rfl
  · obtain ⟨heh, hew⟩ := computeEdgeMap_dims he
    have h2h : (addSoftRedGreenLines RG_LINE_WIDTH (softNormalizeLines e) c).h = c.h := by
      rw [addSoftRedGreenLines_h, softNormalizeLines_h, heh]
    have h2w : (addSoftRedGreenLines RG_LINE_WIDTH (softNormalizeLines e) c).w = c.w := by
      rw [addSoftRedGreenLines_w, softNormalizeLines_w, hew]
    unfold runEdgePipeline
    rw [he]
    show some (if borderBand (addSoftRedGreenLines RG_LINE_WIDTH (softNormalizeLines e) c).h
        (addSoftRedGreenLines RG_LINE_WIDTH (softNormalizeLines e) c).w
        BORDER_WIDTH_PX y x = true then 0
      else (addSoftRedGreenLines RG_LINE_WIDTH (softNormalizeLines e) c).px y x) =
      some (if borderBand c.h c.w BORDER_WIDTH_PX y x = true then 0
      else (addSoftRedGreenLines RG_LINE_WIDTH (softNormalizeLines e) c).px y x)
    rw [h2h, h2w]

/-- Counterexample for C6 as stated: on the 4 x 4 white input with the
frame enabled, the corner pixel (0, 0) lies in the outermost 2-pixel ring
— the claim requires it to be 0 — yet the output keeps the background
value 255, because the PIL rectangle outline extends inward from the box
inset by offset = width // 2 = 1 and never touches row 0 or column 0. -/
theorem c6_outer_ring_not_zeroed :
    (runEdgePipeline pwStd img4W (some true)).map (fun o => o.px 0 0) = some 255 ∧
    (255 : ℕ) ≠ 0 := by
  constructor
  · with_unfolding_all decide
  · decide

/-- Witness for the amended C6 at the 4 x 4 white image and pixel (0, 0). -/
theorem c6_border_region_witness :
    (runEdgePipeline pwStd img4W (some true)).map (fun o => o.px 0 0) =
      (runEdgePipeline pwStd img4W none).map
        (fun o => if borderBand img4W.h img4W.w BORDER_WIDTH_PX 0 0 then 0 else o.px 0 0) :=
  c6_border_region pwStd img4W (by decide) (by decide) 0 0

end EdgeWizard
